import Mathlib

/-!
Shallow embedding of the inclusion-list verifier of this go-ethereum fork
(`core/inclusion_list.go`): the standalone list validator
`verifyInclusionList` and the block reconciler `verifyInclusionListInBlock`,
together with theorems settling the specification claims about them.

Modelling conventions:
* addresses and content hashes are `Nat`;
* `types.Transaction` is reduced to its observable fields (`Type`, `Nonce`,
  `Gas`, `GasFeeCap`, recovered sender, content hash); sender recovery
  `types.Sender(signer, tx)` is deterministic for the fixed signer of one
  call, so it is modelled as an `Option Nat` field (`none` = recovery error);
* machine integers are `Nat` with explicit `% 2 ^ 64` / `% 2 ^ 32` where the
  Go code can overflow or truncate;
* the base fee `eip1559.CalcBaseFee(config, parent)` is an external
  collaborator and enters as a plain `Nat` parameter;
* Go map-of-slices state is an association list, and a Go `panic`
  (out-of-range slice index) is an explicit `Outcome.panic` result.
-/

/-- Observable fields of a decoded signed transaction. -/
structure Tx where
  txType : Nat
  nonce : Nat
  gas : Nat
  gasFeeCap : Nat
  sender : Option Nat
  hash : Nat
deriving DecidableEq

/-- One summary entry of an inclusion list: declared address and gas bound. -/
structure InclusionListEntry where
  address : Nat
  gasLimit : Nat
deriving DecidableEq

/-- An inclusion list: summary entries plus the corresponding transactions. -/
structure InclusionList where
  summary : List InclusionListEntry
  transactions : List Tx
deriving DecidableEq

/-- Error taxonomy of both verifiers (the Go code returns `errors.New`
strings; each Lean constructor corresponds to one distinct message). -/
inductive ILError where
  | SizeMismatch
  | SizeExceeded
  | UnsupportedTxType
  | GasLimitExceeded
  | InvalidTx
  | SenderMismatch
  | IncorrectNonce
  | InsufficientGasFeeCap
  | MissingSummaryEntry
  | MissingInclusionInBlock
  | InvalidGasLimit
deriving DecidableEq

/-- Result of `verifyInclusionList` (Go returns `(bool, error)`). -/
inductive VResult where
  | ok : Bool → VResult
  | error : ILError → VResult
deriving DecidableEq

def MAX_TRANSACTIONS_PER_INCLUSION_LIST : Nat := 16

def MAX_GAS_PER_INCLUSION_LIST : Nat := 2097152

/-- Value of `types.BlobTxType` in go-ethereum. -/
def BlobTxType : Nat := 3

def U64 : Nat := 2 ^ 64

def U32 : Nat := 2 ^ 32

/-- Association-list lookup, modelling a Go `map` read `m[k]`. -/
def alookup {α : Type} : List (Nat × α) → Nat → Option α
  | [], _ => none
  | (k, v) :: rest, a => if k = a then some v else alookup rest a

/-- Association-list update, modelling a Go `map` write `m[k] = v`. -/
def aset {α : Type} : List (Nat × α) → Nat → α → List (Nat × α)
  | [], a, v => [(a, v)]
  | (k, w) :: rest, a, v =>
    if k = a then (a, v) :: rest else (k, w) :: aset rest a v

/-- Number of binary digits of `n`, with explicit fuel (`n` itself suffices,
since the recursion halves `n` each step).  This is `x.BitLen()` of Go's
`math/big`. -/
def bitlenAux : Nat → Nat → Nat
  | 0, _ => 0
  | fuel + 1, n => if n = 0 then 0 else bitlenAux fuel (n / 2) + 1

def bitlen (n : Nat) : Nat := bitlenAux n n

/-- Numerator (over 8) of the gas-fee threshold that the Go code computes as
`new(big.Float).Mul(new(big.Float).SetFloat64(1.125), new(big.Float).SetInt(b))`.

`SetFloat64(1.125)` is exact with precision 53 and `SetInt(b)` is exact with
precision `max 64 (bitlen b)`, so the product `9 * b / 8` is rounded to
nearest-even at `p = max 64 (bitlen b)` significant bits (the larger operand
precision), which is a no-op iff `bitlen (9 * b) ≤ p`.  The rounded value is
`roundedNineB b / 8`, kept as an integer numerator so that the comparison
against an integer fee cap `c` is exactly `8 * c < roundedNineB b`. -/
def roundedNineB (b : Nat) : Nat :=
  let m := 9 * b
  let p := max 64 (bitlen b)
  if bitlen m ≤ p then m
  else
    let s := bitlen m - p
    let q := m / 2 ^ s
    let r := m % 2 ^ s
    let q2 :=
      if 2 * r < 2 ^ s then q
      else if 2 ^ s < 2 * r then q + 1
      else if q % 2 = 0 then q else q + 1
    q2 * 2 ^ s

/-- The fee check of `verifyInclusionList`:
`new(big.Float).SetInt(tx.GasFeeCap()).Cmp(gasFeeThreshold) == -1`
(`SetInt` on the fee cap is exact, `Cmp` is exact). -/
def feeCapTooLow (c b : Nat) : Bool := decide (8 * c < roundedNineB b)

/-- Per-call state of the validator loop: the nonce cache and the running
uint64 gas accumulator. -/
structure VState where
  nonceCache : List (Nat × Nat)
  gasLimit : Nat
deriving DecidableEq

/-- Result of one validator loop iteration. -/
inductive StepRes where
  | ok : VState → StepRes
  | error : ILError → StepRes
deriving DecidableEq

/-- The nonce resolved for sender `a`: the cached value if present in this
call's cache, otherwise `getStateNonce(a)`. -/
def resolvedNonce (st : VState) (oracle : Nat → Nat) (a : Nat) : Nat :=
  match alookup st.nonceCache a with
  | some c => c
  | none => oracle a

/-- One iteration of the `for i, summary := range list.Summary` loop of
`verifyInclusionList` (src/core/inclusion_list.go lines 51-96): blob-type
check, wrapping uint64 gas accumulation with cap check, sender recovery and
match, the `tx.Nonce() == nonce+1` rule with cache write `tx.Nonce()`, and
the big.Float fee-cap check. -/
def vStep (b : Nat) (oracle : Nat → Nat) (st : VState)
    (summary : InclusionListEntry) (tx : Tx) : StepRes :=
  if tx.txType = BlobTxType then .error .UnsupportedTxType
  else
    let gasLimit := (st.gasLimit + tx.gas) % U64
    if MAX_GAS_PER_INCLUSION_LIST < gasLimit then .error .GasLimitExceeded
    else
      match tx.sender with
      | none => .error .InvalidTx
      | some fr =>
        if summary.address ≠ fr then .error .SenderMismatch
        else
          let nonce := resolvedNonce st oracle fr
          if tx.nonce = (nonce + 1) % U64 then
            if feeCapTooLow tx.gasFeeCap b then .error .InsufficientGasFeeCap
            else .ok ⟨aset st.nonceCache fr tx.nonce, gasLimit⟩
          else .error .IncorrectNonce

/-- The validator loop over the positionally paired entries. -/
def vSteps (b : Nat) (oracle : Nat → Nat) : VState → List (InclusionListEntry × Tx) → StepRes
  | st, [] => .ok st
  | st, (s, t) :: rest =>
    match vStep b oracle st s t with
    | .ok st2 => vSteps b oracle st2 rest
    | .error e => .error e

/-- Embedding of `verifyInclusionList` (src/core/inclusion_list.go).
`baseFee` stands for the external `eip1559.CalcBaseFee(config, parent)` and
`oracle` for `getStateNonce`. -/
def verifyInclusionList (list : InclusionList) (baseFee : Nat) (oracle : Nat → Nat) : VResult :=
  if list.summary.length ≠ list.transactions.length then .error .SizeMismatch
  else if MAX_TRANSACTIONS_PER_INCLUSION_LIST < list.summary.length then .error .SizeExceeded
  else
    match vSteps baseFee oracle ⟨[], 0⟩ (list.summary.zip list.transactions) with
    | .ok _ => .ok true
    | .error e => .error e

/-- One iteration of the historical typed-error revision of the validator
loop, identical to `vStep` except for the nonce rule: it accepts
`tx.Nonce() == nonce` and caches `nonce + 1`. -/
def vStepR2 (b : Nat) (oracle : Nat → Nat) (st : VState)
    (summary : InclusionListEntry) (tx : Tx) : StepRes :=
  if tx.txType = BlobTxType then .error .UnsupportedTxType
  else
    let gasLimit := (st.gasLimit + tx.gas) % U64
    if MAX_GAS_PER_INCLUSION_LIST < gasLimit then .error .GasLimitExceeded
    else
      match tx.sender with
      | none => .error .InvalidTx
      | some fr =>
        if summary.address ≠ fr then .error .SenderMismatch
        else
          let nonce := resolvedNonce st oracle fr
          if tx.nonce = nonce then
            if feeCapTooLow tx.gasFeeCap b then .error .InsufficientGasFeeCap
            else .ok ⟨aset st.nonceCache fr ((nonce + 1) % U64), gasLimit⟩
          else .error .IncorrectNonce

/-- Loop of the typed-error revision. -/
def vStepsR2 (b : Nat) (oracle : Nat → Nat) : VState → List (InclusionListEntry × Tx) → StepRes
  | st, [] => .ok st
  | st, (s, t) :: rest =>
    match vStepR2 b oracle st s t with
    | .ok st2 => vStepsR2 b oracle st2 rest
    | .error e => .error e

/-- Embedding of the repository's typed-error revision of
`verifyInclusionList` (the revision against which the repository's own unit
test compiles; it differs from src/core/inclusion_list.go only in the nonce
rule and in returning named errors). -/
def verifyInclusionListR2 (list : InclusionList) (baseFee : Nat) (oracle : Nat → Nat) : VResult :=
  if list.summary.length ≠ list.transactions.length then .error .SizeMismatch
  else if MAX_TRANSACTIONS_PER_INCLUSION_LIST < list.summary.length then .error .SizeExceeded
  else
    match vStepsR2 baseFee oracle ⟨[], 0⟩ (list.summary.zip list.transactions) with
    | .ok _ => .ok true
    | .error e => .error e

/-- Result of `verifyInclusionListInBlock` (Go `(bool, error)`, plus the
runtime panic of an out-of-range slice index). -/
inductive Outcome where
  | ok : Bool → Outcome
  | error : ILError → Outcome
  | panic : Outcome
deriving DecidableEq

/-- Reconciler state: the per-address FIFO queues of outstanding gas-limit
obligations (`summaries` map) and the satisfied-obligation counter
(`exclusions`). -/
structure RState where
  summaries : List (Nat × List Nat)
  exclusions : Nat
deriving DecidableEq

/-- Result of an exclusion-phase or current-block step. -/
inductive PhaseRes where
  | ok : RState → PhaseRes
  | error : ILError → PhaseRes
  | panic : PhaseRes
deriving DecidableEq

/-- One iteration of the summary-map construction:
`summaries[summary.Address] = append(summaries[summary.Address], summary.GasLimit)`
(with implicit creation of an empty slice for a fresh address). -/
def addSummary (m : List (Nat × List Nat)) (e : InclusionListEntry) : List (Nat × List Nat) :=
  match alookup m e.address with
  | none => aset m e.address [e.gasLimit]
  | some q => aset m e.address (q ++ [e.gasLimit])

/-- The summary map `address -> []{gas limit}` built from `list.Summary` in
insertion order. -/
def buildSummaries (s : List InclusionListEntry) : List (Nat × List Nat) :=
  s.foldl addSummary []

/-- One iteration of the exclusion-phase loop of `verifyInclusionListInBlock`:
the unguarded lookup `parentTxs[index]` (out of range = panic), sender
recovery, and popping one obligation of that sender (`summaries[from][1:]`),
with empty or absent queue reported as the missing-summary-entry error. -/
def excStep (parentTxs : List Tx) (st : RState) (idx : Nat) : PhaseRes :=
  match parentTxs[idx]? with
  | none => .panic
  | some tx =>
    match tx.sender with
    | none => .error .InvalidTx
    | some fr =>
      match alookup st.summaries fr with
      | none => .error .MissingSummaryEntry
      | some [] => .error .MissingSummaryEntry
      | some (_ :: rest) => .ok ⟨aset st.summaries fr rest, st.exclusions + 1⟩

/-- The exclusion phase: fold of `excStep` over `exclusionList`. -/
def excPhase (parentTxs : List Tx) : RState → List Nat → PhaseRes
  | st, [] => .ok st
  | st, idx :: rest =>
    match excStep parentTxs st idx with
    | .ok st2 => excPhase parentTxs st2 rest
    | .error e => .error e
    | .panic => .panic

/-- Body of the current-block loop of `verifyInclusionListInBlock` for one
transaction: sender recovery, outstanding-obligation lookup, the gas bound
check `summaries[from][0] > uint32(tx.Gas())` (note the uint32 truncation of
the transaction's uint64 gas), the pop, and the content-hash membership
check against the list's transactions. -/
def curStep (ilHashes : List Nat) (st : RState) (tx : Tx) : PhaseRes :=
  match tx.sender with
  | none => .error .InvalidTx
  | some fr =>
    match alookup st.summaries fr with
    | none => .error .MissingInclusionInBlock
    | some [] => .error .MissingInclusionInBlock
    | some (bound :: rest) =>
      if tx.gas % U32 < bound then .error .InvalidGasLimit
      else
        let st2 : RState := ⟨aset st.summaries fr rest, st.exclusions + 1⟩
        if ilHashes.contains tx.hash then .ok st2
        else .error .MissingInclusionInBlock

/-- The current-block loop of `verifyInclusionListInBlock`, exactly as
written in the source: each pass first evaluates the (inverted) break
condition `exclusions < len(list.Summary)` and returns success on it, then
dereferences `currentTxs[index]` (panicking when the index is out of range)
and runs `curStep`. -/
def curLoop (ilHashes : List Nat) (summaryLen : Nat) : RState → List Tx → Outcome
  | st, [] => if st.exclusions < summaryLen then .ok true else .panic
  | st, tx :: rest =>
    if st.exclusions < summaryLen then .ok true
    else
      match curStep ilHashes st tx with
      | .ok st2 => curLoop ilHashes summaryLen st2 rest
      | .error e => .error e
      | .panic => .panic

/-- Embedding of `verifyInclusionListInBlock` (the reconciler). -/
def verifyInclusionListInBlock (list : InclusionList) (exclusionList : List Nat)
    (parentTxs currentTxs : List Tx) : Outcome :=
  let summaries := buildSummaries list.summary
  let ilHashes := list.transactions.map Tx.hash
  match excPhase parentTxs ⟨summaries, 0⟩ exclusionList with
  | .ok st => curLoop ilHashes list.summary.length st currentTxs
  | .error e => .error e
  | .panic => .panic

/-- Wrapped (uint64) running gas sum of a transaction sequence, the value the
validator's `gasLimit` accumulator holds after processing them. -/
def wgas (txs : List Tx) : Nat := txs.foldl (fun acc t => (acc + t.gas) % U64) 0

/-- The same wrapped accumulation started from an arbitrary accumulator
value (used to state the loop invariant). -/
def wgasFrom (acc : Nat) (txs : List Tx) : Nat :=
  txs.foldl (fun a t => (a + t.gas) % U64) acc

/-- The recovered sender of `parentTxs[i]`, when `i` is in range and recovery
succeeds. -/
def senderAt (parentTxs : List Tx) (i : Nat) : Option Nat :=
  (parentTxs[i]?).bind Tx.sender

/-- How many exclusion indices name a parent transaction with sender `a`. -/
def claimCount (parentTxs : List Tx) (idxs : List Nat) (a : Nat) : Nat :=
  (idxs.filter (fun i => senderAt parentTxs i == some a)).length

/-- How many summary entries an address has in the list. -/
def entryCount (s : List InclusionListEntry) (a : Nat) : Nat :=
  (s.filter (fun e => e.address == a)).length

/-- Length of the obligation queue of address `a` in a summary map. -/
def qlen (m : List (Nat × List Nat)) (a : Nat) : Nat :=
  match alookup m a with
  | none => 0
  | some q => q.length

theorem alookup_aset_self {α : Type} (m : List (Nat × α)) (a : Nat) (v : α) :
    alookup (aset m a v) a = some v := by
  induction m with
  | nil => simp [aset, alookup]
  | cons kv rest ih =>
    obtain ⟨k, w⟩ := kv
    by_cases h : k = a
    · subst h; simp [aset, alookup]
    · simp [aset, alookup, h, ih]

theorem alookup_aset_ne {α : Type} (m : List (Nat × α)) (a b : Nat) (v : α)
    (hab : b ≠ a) : alookup (aset m a v) b = alookup m b := by
  induction m with
  | nil => simp [aset, alookup, Ne.symm hab]
  | cons kv rest ih =>
    obtain ⟨k, w⟩ := kv
    by_cases h : k = a
    · subst h
      simp [aset, alookup, Ne.symm hab]
    · by_cases h2 : k = b <;> simp [aset, alookup, h, h2, ih, hab, Ne.symm hab]

/-- Claim C1 evaluation: a reconcile call with one outstanding obligation, no
exclusions and an empty current block returns success. -/
theorem C1_success_with_unsatisfied_obligation :
    verifyInclusionListInBlock
      ⟨[⟨1, 100000⟩], [⟨0, 1, 100000, 2000000000, some 1, 5⟩]⟩ [] [] [] = .ok true := by
  rfl

/-- Claim C2 evaluation: a reconcile call whose single obligation is fully
discharged by the exclusion phase is rejected with the missing-inclusion
error instead of succeeding. -/
theorem C2_exclusion_satisfied_rejected :
    verifyInclusionListInBlock
      ⟨[⟨1, 100000⟩], [⟨0, 1, 100000, 2000000000, some 1, 5⟩]⟩ [0]
      [⟨0, 1, 100000, 2000000000, some 1, 5⟩] [⟨0, 1, 100000, 2000000000, some 1, 5⟩]
      = .error .MissingInclusionInBlock := by
  rfl

/-- Claim C3 evaluation: on the spec scenario (single entry, transaction
nonce 0, oracle 0, ample fee cap) the validator of
src/core/inclusion_list.go rejects with IncorrectNonce because its rule is
`tx.Nonce() == stateNonce+1`, while the repository's typed-error revision
(the one its unit test expects, rule `tx.Nonce() == stateNonce`) accepts. -/
theorem C3_nonce_divergence :
    verifyInclusionList
        ⟨[⟨1, 100000⟩], [⟨0, 0, 100000, 2000000000, some 1, 5⟩]⟩ 1000000000 (fun _ => 0)
      = .error .IncorrectNonce
    ∧ verifyInclusionListR2
        ⟨[⟨1, 100000⟩], [⟨0, 0, 100000, 2000000000, some 1, 5⟩]⟩ 1000000000 (fun _ => 0)
      = .ok true := by
  exact ⟨rfl, rfl⟩

/-- Claim C8: when the summary and transactions have equal length and more
than 16 entries, `verifyInclusionList` returns SizeExceeded without looking
at any entry. -/
theorem C8_size_exceeded (list : InclusionList) (baseFee : Nat) (oracle : Nat → Nat)
    (hlen : list.summary.length = list.transactions.length)
    (hgt : 16 < list.summary.length) :
    verifyInclusionList list baseFee oracle = .error .SizeExceeded := by
  unfold verifyInclusionList
  rw [if_neg (by simp [hlen]),
    if_pos (show MAX_TRANSACTIONS_PER_INCLUSION_LIST < list.summary.length from hgt)]

theorem C8_witness :
    verifyInclusionList
      ⟨List.replicate 17 ⟨1, 100⟩, List.replicate 17 ⟨0, 1, 100, 0, some 1, 5⟩⟩
      7 (fun _ => 0) = .error .SizeExceeded :=
  C8_size_exceeded
    ⟨List.replicate 17 ⟨1, 100⟩, List.replicate 17 ⟨0, 1, 100, 0, some 1, 5⟩⟩
    7 (fun _ => 0) (by decide) (by decide)

/-- Claim C10: an exclusion-phase step discharges an obligation purely from
the recovered sender of the referenced parent transaction: for an arbitrary
transaction (any gas limit, any content hash, named in the list or not)
whose sender has a non-empty obligation queue, the step pops that queue and
counts a satisfied obligation, with no other condition. -/
theorem C10_exclusion_sender_only (parentTxs : List Tx) (idx : Nat) (st : RState)
    (tx : Tx) (s bound : Nat) (q : List Nat)
    (hidx : parentTxs[idx]? = some tx)
    (hs : tx.sender = some s)
    (hq : alookup st.summaries s = some (bound :: q)) :
    excStep parentTxs st idx = .ok ⟨aset st.summaries s q, st.exclusions + 1⟩ := by
  simp [excStep, hidx, hs, hq]

theorem C10_witness :
    excStep [⟨0, 0, 0, 0, some 1, 999⟩] ⟨[(1, [100000])], 0⟩ 0
      = .ok ⟨[(1, [])], 1⟩ :=
  C10_exclusion_sender_only [⟨0, 0, 0, 0, some 1, 999⟩] 0 ⟨[(1, [100000])], 0⟩
    ⟨0, 0, 0, 0, some 1, 999⟩ 1 100000 [] rfl rfl rfl

theorem excPhase_append (parentTxs : List Tx) (xs ys : List Nat) (st : RState) :
    excPhase parentTxs st (xs ++ ys) =
      match excPhase parentTxs st xs with
      | .ok st2 => excPhase parentTxs st2 ys
      | .error e => .error e
      | .panic => .panic := by
  induction xs generalizing st with
  | nil => simp [excPhase]
  | cons idx rest ih =>
    simp only [List.cons_append, excPhase]
    cases excStep parentTxs st idx <;> simp [ih]

/-- Claim C6 counterexample: the current-block gas bound check compares the
obligation bound against `uint32(tx.Gas())`; a transaction with gas limit
`2^32` (which is `≥` the bound 1) is truncated to 0 and takes the
InvalidGasLimit branch. -/
theorem C6_counterexample :
    (1 : Nat) ≤ 2 ^ 32
    ∧ curStep [] ⟨[(1, [1])], 5⟩ ⟨0, 0, 2 ^ 32, 0, some 1, 9⟩ = .error .InvalidGasLimit := by
  exact ⟨by decide, rfl⟩

/-- Claim C6 amended: a current-block transaction from a sender with an
outstanding obligation avoids the InvalidGasLimit branch exactly when its
gas limit reduced modulo `2^32` (the code casts `tx.Gas()` to uint32) is at
least the popped obligation's bound; for gas limits below `2^32` this is the
original claim. -/
theorem C6_amended (ilHashes : List Nat) (st : RState) (tx : Tx) (s bound : Nat)
    (q : List Nat)
    (hs : tx.sender = some s)
    (hq : alookup st.summaries s = some (bound :: q))
    (hgas : bound ≤ tx.gas % U32) :
    curStep ilHashes st tx ≠ .error .InvalidGasLimit := by
  simp only [curStep, hs, hq, Nat.not_lt.mpr hgas, if_false]
  split <;> simp

theorem C6_witness :
    curStep [9] ⟨[(1, [40])], 0⟩ ⟨0, 0, 2 ^ 32 + 50, 0, some 1, 9⟩
      ≠ .error .InvalidGasLimit :=
  C6_amended [9] ⟨[(1, [40])], 0⟩ ⟨0, 0, 2 ^ 32 + 50, 0, some 1, 9⟩ 1 40 []
    rfl rfl (by decide)

/-- Claim C9 counterexample: a reconcile call whose exclusion indices contain
the out-of-range index 7 (parent block has 1 transaction) nevertheless
returns the InvalidTx validation error, because the earlier index 0 names a
transaction whose sender recovery fails before index 7 is dereferenced. -/
theorem C9_counterexample :
    verifyInclusionListInBlock ⟨[⟨1, 100⟩], [⟨0, 1, 100, 0, some 1, 5⟩]⟩ [0, 7]
        [⟨0, 1, 100, 0, none, 6⟩] [] = .error .InvalidTx
    ∧ List.length [(⟨0, 1, 100, 0, none, 6⟩ : Tx)] ≤ 7 := by
  exact ⟨rfl, by decide⟩

/-- Claim C9 amended: the parent-transaction lookup is unguarded, so
reconcile panics with an index-out-of-range error on the first out-of-range
exclusion index it reaches: whenever the indices before it are processed by
the exclusion phase without error, the call ends in a panic rather than a
validation error. -/
theorem C9_amended (list : InclusionList) (pre post : List Nat) (i : Nat)
    (parentTxs currentTxs : List Tx) (st : RState)
    (hpre : excPhase parentTxs ⟨buildSummaries list.summary, 0⟩ pre = .ok st)
    (hoob : parentTxs.length ≤ i) :
    verifyInclusionListInBlock list (pre ++ i :: post) parentTxs currentTxs = .panic := by
  have hnone : parentTxs[i]? = none := by
    simp [List.getElem?_eq_none_iff, hoob]
  simp only [verifyInclusionListInBlock, excPhase_append, hpre, excPhase, excStep, hnone]

theorem C9_witness :
    verifyInclusionListInBlock ⟨[⟨1, 100⟩], [⟨0, 1, 100, 0, some 1, 5⟩]⟩ [3] [] []
      = .panic :=
  C9_amended ⟨[⟨1, 100⟩], [⟨0, 1, 100, 0, some 1, 5⟩]⟩ [] [3] 3 [] []
    ⟨buildSummaries [⟨1, 100⟩], 0⟩ rfl (by decide)

theorem qlen_addSummary (m : List (Nat × List Nat)) (e : InclusionListEntry) (a : Nat) :
    qlen (addSummary m e) a = qlen m a + (if e.address = a then 1 else 0) := by
  by_cases h : e.address = a
  · subst h
    unfold addSummary qlen
    cases hm : alookup m e.address with
    | none => simp [hm, alookup_aset_self]
    | some q => simp [hm, alookup_aset_self]
  · unfold addSummary qlen
    cases hm : alookup m e.address with
    | none => simp [hm, alookup_aset_ne _ _ _ _ (Ne.symm h), h]
    | some q => simp [hm, alookup_aset_ne _ _ _ _ (Ne.symm h), h]

theorem qlen_foldl_addSummary (s : List InclusionListEntry) (m : List (Nat × List Nat)) (a : Nat) :
    qlen (s.foldl addSummary m) a = qlen m a + entryCount s a := by
  induction s generalizing m with
  | nil => simp [entryCount]
  | cons e rest ih =>
    rw [List.foldl_cons, ih, qlen_addSummary]
    unfold entryCount
    rw [List.filter_cons]
    by_cases h : e.address = a
    · simp [h]
      omega
    · simp [h]

theorem excPhase_overclaim (parentTxs : List Tx) (idxs : List Nat) (st : RState) (a : Nat)
    (hrec : ∀ i ∈ idxs, (senderAt parentTxs i).isSome)
    (hover : qlen st.summaries a < claimCount parentTxs idxs a) :
    excPhase parentTxs st idxs = .error .MissingSummaryEntry := by
  induction idxs generalizing st with
  | nil => simp [claimCount] at hover
  | cons i rest ih =>
    have hi := hrec i (List.mem_cons_self i rest)
    obtain ⟨s, hs⟩ := Option.isSome_iff_exists.mp hi
    unfold senderAt at hs
    cases htx : parentTxs[i]? with
    | none => rw [htx] at hs; simp at hs
    | some tx =>
      rw [htx] at hs
      simp only [Option.some_bind] at hs
      cases hq : alookup st.summaries s with
      | none => simp [excPhase, excStep, htx, hs, hq]
      | some q =>
        cases q with
        | nil => simp [excPhase, excStep, htx, hs, hq]
        | cons bound restQ =>
          have hstep : excStep parentTxs st i
              = .ok ⟨aset st.summaries s restQ, st.exclusions + 1⟩ := by
            simp [excStep, htx, hs, hq]
          rw [excPhase, hstep]
          apply ih _ (fun j hj => hrec j (List.mem_cons_of_mem _ hj))
          by_cases hsa : s = a
          · subst hsa
            have h1 : qlen (aset st.summaries s restQ) s = restQ.length := by
              simp [qlen, alookup_aset_self]
            have h2 : qlen st.summaries s = restQ.length + 1 := by
              simp [qlen, hq]
            have h3 : claimCount parentTxs (i :: rest) s
                = claimCount parentTxs rest s + 1 := by
              unfold claimCount
              rw [List.filter_cons]
              simp [senderAt, htx, hs]
            simp only [RState.summaries] at hover ⊢
            omega
          · have h1 : qlen (aset st.summaries s restQ) a = qlen st.summaries a := by
              simp [qlen, alookup_aset_ne _ _ _ _ (Ne.symm hsa)]
            have h3 : claimCount parentTxs (i :: rest) a
                = claimCount parentTxs rest a := by
              unfold claimCount
              rw [List.filter_cons]
              simp [senderAt, htx, hs, hsa]
            simp only [RState.summaries] at hover ⊢
            omega

/-- Claim C7: when the exclusion indices name, for some address `a`, more
(recoverable, in-range) parent transactions than `a` has summary entries,
reconcile fails with the missing-summary-entry error. -/
theorem C7_missing_summary_entry (list : InclusionList) (exclusionList : List Nat)
    (parentTxs currentTxs : List Tx) (a : Nat)
    (hrec : ∀ i ∈ exclusionList, (senderAt parentTxs i).isSome)
    (hover : entryCount list.summary a < claimCount parentTxs exclusionList a) :
    verifyInclusionListInBlock list exclusionList parentTxs currentTxs
      = .error .MissingSummaryEntry := by
  have h := excPhase_overclaim parentTxs exclusionList ⟨buildSummaries list.summary, 0⟩ a hrec
    (by
      unfold buildSummaries
      simp only [RState.summaries]
      rw [qlen_foldl_addSummary]
      simpa [qlen, alookup] using hover)
  simp [verifyInclusionListInBlock, h]

theorem C7_witness :
    verifyInclusionListInBlock ⟨[⟨1, 100⟩], [⟨0, 1, 100, 0, some 1, 5⟩]⟩ [0, 0]
      [⟨0, 1, 100, 0, some 1, 5⟩] [] = .error .MissingSummaryEntry :=
  C7_missing_summary_entry ⟨[⟨1, 100⟩], [⟨0, 1, 100, 0, some 1, 5⟩]⟩ [0, 0]
    [⟨0, 1, 100, 0, some 1, 5⟩] [] 1 (by decide) (by decide)

theorem bitlenAux_le (fuel n k : Nat) (hf : n ≤ fuel) (h : n < 2 ^ k) :
    bitlenAux fuel n ≤ k := by
  induction fuel generalizing n k with
  | zero =>
    simp [bitlenAux]
  | succ fuel ih =>
    by_cases hn : n = 0
    · simp [bitlenAux, hn]
    · rw [bitlenAux, if_neg hn]
      cases k with
      | zero =>
        exact absurd h (by omega)
      | succ k =>
        have hdiv : n / 2 < 2 ^ k := by
          have hp : 2 ^ (k + 1) = 2 * 2 ^ k := by rw [Nat.pow_succ]; ring
          omega
        have hfuel : n / 2 ≤ fuel := by omega
        have := ih (n / 2) k hfuel hdiv
        omega

theorem bitlen_le_of_lt (n k : Nat) (h : n < 2 ^ k) : bitlen n ≤ k :=
  bitlenAux_le n n k (Nat.le_refl n) h

/-- When `9 * baseFee` fits in 64 bits (in particular for every base fee
below `2^60`), the big.Float product is exact and the threshold numerator is
`9 * baseFee` itself. -/
theorem roundedNineB_eq_of_small (b : Nat) (h : 9 * b < 2 ^ 64) :
    roundedNineB b = 9 * b := by
  have h1 : bitlen (9 * b) ≤ 64 := bitlen_le_of_lt _ _ h
  have h2 : bitlen (9 * b) ≤ max 64 (bitlen b) := le_trans h1 (le_max_left _ _)
  simp [roundedNineB, h2]

/-- Claim C4 amended: a transaction whose entry passes the preceding checks
(non-blob type, gas cap, sender recovery and match, nonce rule) is rejected
by the fee check exactly when `8 * gasFeeCap` is below the big.Float
threshold numerator `roundedNineB baseFee` (the product `1.125 × baseFee`
rounded to nearest-even at `max 64 (bitlen baseFee)` significant bits); this
coincides with the exact rational comparison against `9/8 × baseFee`
whenever `9 * baseFee < 2^64`. -/
theorem C4_amended (b : Nat) (oracle : Nat → Nat) (st : VState)
    (summary : InclusionListEntry) (tx : Tx) (s : Nat)
    (htype : tx.txType ≠ BlobTxType)
    (hgas : (st.gasLimit + tx.gas) % U64 ≤ MAX_GAS_PER_INCLUSION_LIST)
    (hsender : tx.sender = some s)
    (haddr : summary.address = s)
    (hnonce : tx.nonce = (resolvedNonce st oracle s + 1) % U64) :
    (vStep b oracle st summary tx = .error .InsufficientGasFeeCap
      ↔ 8 * tx.gasFeeCap < roundedNineB b)
    ∧ (9 * b < 2 ^ 64
      → (8 * tx.gasFeeCap < roundedNineB b ↔ 8 * tx.gasFeeCap < 9 * b)) := by
  constructor
  · have hgas2 : ¬ MAX_GAS_PER_INCLUSION_LIST < (st.gasLimit + tx.gas) % U64 :=
      Nat.not_lt.mpr hgas
    simp only [vStep, htype, if_false, hgas2, hsender, haddr, hnonce,
      ne_eq, not_true_eq_false, if_true, feeCapTooLow]
    by_cases hc : 8 * tx.gasFeeCap < roundedNineB b <;> simp [hc]
  · intro h
    rw [roundedNineB_eq_of_small b h]

theorem C4_witness :
    (vStep 1000000000 (fun _ => 0) ⟨[], 0⟩ ⟨1, 100000⟩ ⟨0, 1, 100000, 1124999999, some 1, 5⟩
        = .error .InsufficientGasFeeCap ↔ 8 * 1124999999 < roundedNineB 1000000000)
    ∧ (9 * 1000000000 < 2 ^ 64
      → (8 * 1124999999 < roundedNineB 1000000000 ↔ 8 * 1124999999 < 9 * 1000000000)) :=
  C4_amended 1000000000 (fun _ => 0) ⟨[], 0⟩ ⟨1, 100000⟩
    ⟨0, 1, 100000, 1124999999, some 1, 5⟩ 1 (by decide) (by decide) rfl rfl rfl

/-- Claim C4 counterexample: with base fee `2^63 + 1` the big.Float
threshold rounds down to the integer `9 * 2^60 + 1`, so a fee cap of exactly
`9 * 2^60 + 1` — strictly below the exact threshold `9/8 × (2^63 + 1)`, as
the second conjunct states — passes the fee check and the whole validation
succeeds, instead of returning InsufficientGasFeeCap. -/
theorem C4_counterexample :
    verifyInclusionList
        ⟨[⟨1, 100000⟩], [⟨0, 1, 100000, 9 * 2 ^ 60 + 1, some 1, 5⟩]⟩
        (2 ^ 63 + 1) (fun _ => 0) = .ok true
    ∧ 8 * (9 * 2 ^ 60 + 1) < 9 * (2 ^ 63 + 1) := by
  exact ⟨rfl, by decide⟩

theorem wgas_eq (txs : List Tx) : wgas txs = wgasFrom 0 txs := rfl

theorem vStep_ok_gasLimit {b : Nat} {oracle : Nat → Nat} {st : VState}
    {s : InclusionListEntry} {t : Tx} {st2 : VState}
    (h : vStep b oracle st s t = .ok st2) :
    st2.gasLimit = (st.gasLimit + t.gas) % U64 := by
  simp only [vStep] at h
  split at h
  · exact StepRes.noConfusion h
  split at h
  · exact StepRes.noConfusion h
  split at h
  · exact StepRes.noConfusion h
  split at h
  · exact StepRes.noConfusion h
  split at h
  · split at h
    · exact StepRes.noConfusion h
    · cases h
      rfl
  · exact StepRes.noConfusion h

theorem vStep_gle {b : Nat} {oracle : Nat → Nat} {st : VState}
    {s : InclusionListEntry} {t : Tx}
    (h : vStep b oracle st s t = .error .GasLimitExceeded) :
    MAX_GAS_PER_INCLUSION_LIST < (st.gasLimit + t.gas) % U64 := by
  simp only [vStep] at h
  split at h
  · exact absurd (StepRes.error.inj h) (by simp)
  split at h
  · assumption
  split at h
  · exact absurd (StepRes.error.inj h) (by simp)
  split at h
  · exact absurd (StepRes.error.inj h) (by simp)
  split at h
  · split at h
    · exact absurd (StepRes.error.inj h) (by simp)
    · exact StepRes.noConfusion h
  · exact absurd (StepRes.error.inj h) (by simp)

theorem vStep_gle_intro {b : Nat} {oracle : Nat → Nat} {st : VState}
    {s : InclusionListEntry} {t : Tx}
    (htype : t.txType ≠ BlobTxType)
    (hgt : MAX_GAS_PER_INCLUSION_LIST < (st.gasLimit + t.gas) % U64) :
    vStep b oracle st s t = .error .GasLimitExceeded := by
  simp [vStep, htype, hgt]

theorem vSteps_append (b : Nat) (oracle : Nat → Nat) (xs ys : List (InclusionListEntry × Tx))
    (st : VState) :
    vSteps b oracle st (xs ++ ys) =
      match vSteps b oracle st xs with
      | .ok st2 => vSteps b oracle st2 ys
      | .error e => .error e := by
  induction xs generalizing st with
  | nil => simp [vSteps]
  | cons p rest ih =>
    obtain ⟨s, t⟩ := p
    simp only [List.cons_append, vSteps]
    cases vStep b oracle st s t <;> simp [ih]

theorem vSteps_ok_gasLimit {b : Nat} {oracle : Nat → Nat}
    (ps : List (InclusionListEntry × Tx)) (st st2 : VState)
    (h : vSteps b oracle st ps = .ok st2) :
    st2.gasLimit = wgasFrom st.gasLimit (ps.map Prod.snd) := by
  induction ps generalizing st with
  | nil =>
    simp only [vSteps] at h
    cases h
    simp [wgasFrom]
  | cons p rest ih =>
    obtain ⟨s, t⟩ := p
    simp only [vSteps] at h
    cases hs : vStep b oracle st s t with
    | error e => rw [hs] at h; exact StepRes.noConfusion h
    | ok stm =>
      rw [hs] at h
      have h1 := ih stm h
      have h2 := vStep_ok_gasLimit hs
      simp [wgasFrom, h1, h2]

theorem vSteps_no_gle {b : Nat} {oracle : Nat → Nat}
    (ps : List (InclusionListEntry × Tx)) (st : VState)
    (h : ∀ k, wgasFrom st.gasLimit ((ps.take k).map Prod.snd) ≤ MAX_GAS_PER_INCLUSION_LIST) :
    vSteps b oracle st ps ≠ .error .GasLimitExceeded := by
  induction ps generalizing st with
  | nil => simp [vSteps]
  | cons p rest ih =>
    obtain ⟨s, t⟩ := p
    simp only [vSteps]
    cases hs : vStep b oracle st s t with
    | error e =>
      intro hc
      cases hc
      have := vStep_gle hs
      have h1 := h 1
      simp [wgasFrom] at h1
      omega
    | ok stm =>
      have hg := vStep_ok_gasLimit hs
      apply ih stm
      intro k
      have hk := h (k + 1)
      simpa [wgasFrom, hg] using hk

/-- Claim C5 amended: the validator's gas accumulator is a uint64, so the
relevant running sum is the wrapped one (`wgas`, reduction mod `2^64`).
First conjunct: after any successfully processed prefix the accumulator
equals the wrapped running sum, and if the next entry is non-blob and pushes
the wrapped sum above 2,097,152 the whole validation returns
GasLimitExceeded (at that index — the loop short-circuits, so no later index
reports it).  Second conjunct: a list whose wrapped running sums never
exceed 2,097,152 at any prefix is never rejected with GasLimitExceeded; in
particular this covers every list whose true running sums stay below
2,097,152, where wrapped and true sums coincide. -/
theorem C5_amended (list : InclusionList) (b : Nat) (oracle : Nat → Nat)
    (hlen : list.summary.length = list.transactions.length)
    (hle : list.summary.length ≤ 16) :
    (∀ pre s t post st,
        list.summary.zip list.transactions = pre ++ (s, t) :: post →
        vSteps b oracle ⟨[], 0⟩ pre = .ok st →
        t.txType ≠ BlobTxType →
        st.gasLimit = wgas (pre.map Prod.snd)
        ∧ (MAX_GAS_PER_INCLUSION_LIST < wgas ((pre ++ [(s, t)]).map Prod.snd) →
            verifyInclusionList list b oracle = .error .GasLimitExceeded))
    ∧ ((∀ k, wgas (list.transactions.take k) ≤ MAX_GAS_PER_INCLUSION_LIST) →
        verifyInclusionList list b oracle ≠ .error .GasLimitExceeded) := by
  have hval : verifyInclusionList list b oracle =
      match vSteps b oracle ⟨[], 0⟩ (list.summary.zip list.transactions) with
      | .ok _ => .ok true
      | .error e => .error e := by
    unfold verifyInclusionList
    rw [if_neg (by simp [hlen]),
      if_neg (by simp only [MAX_TRANSACTIONS_PER_INCLUSION_LIST]; omega)]
  constructor
  · intro pre s t post st hz hp ht
    have hinv : st.gasLimit = wgas (pre.map Prod.snd) := by
      rw [wgas_eq]
      simpa using vSteps_ok_gasLimit pre ⟨[], 0⟩ st hp
    refine ⟨hinv, fun hgt => ?_⟩
    have hwrap : wgas ((pre ++ [(s, t)]).map Prod.snd)
        = (st.gasLimit + t.gas) % U64 := by
      simp [wgas, List.foldl_append, hinv]
    have hstep : vStep b oracle st s t = .error .GasLimitExceeded :=
      vStep_gle_intro ht (by rw [← hwrap]; exact hgt)
    have hrun : vSteps b oracle ⟨[], 0⟩ (list.summary.zip list.transactions)
        = .error .GasLimitExceeded := by
      rw [hz, vSteps_append, hp]
      simp [vSteps, hstep]
    rw [hval, hrun]
  · intro hk
    have hzip : (list.summary.zip list.transactions).map Prod.snd = list.transactions :=
      List.map_snd_zip _ _ (le_of_eq hlen.symm)
    have hno := @vSteps_no_gle b oracle
      (list.summary.zip list.transactions) ⟨[], 0⟩
      (by
        intro k
        have htk : ((list.summary.zip list.transactions).take k).map Prod.snd
            = list.transactions.take k := by
          rw [List.map_take, hzip]
        rw [← wgas_eq, htk]
        exact hk k)
    rw [hval]
    cases hres : vSteps b oracle ⟨[], 0⟩ (list.summary.zip list.transactions) with
    | ok st => simp
    | error e =>
      rw [hres] at hno
      simp only []
      intro hc
      cases hc
      exact hno rfl

theorem C5_witness :
    verifyInclusionList
      ⟨[⟨1, 2000000⟩, ⟨1, 2000000⟩],
        [⟨0, 1, 2000000, 2000000000, some 1, 5⟩, ⟨0, 2, 2000000, 2000000000, some 1, 6⟩]⟩
      1000000000 (fun _ => 0) = .error .GasLimitExceeded :=
  ((C5_amended
      ⟨[⟨1, 2000000⟩, ⟨1, 2000000⟩],
        [⟨0, 1, 2000000, 2000000000, some 1, 5⟩, ⟨0, 2, 2000000, 2000000000, some 1, 6⟩]⟩
      1000000000 (fun _ => 0) rfl (by decide)).1
    [(⟨1, 2000000⟩, ⟨0, 1, 2000000, 2000000000, some 1, 5⟩)]
    ⟨1, 2000000⟩ ⟨0, 2, 2000000, 2000000000, some 1, 6⟩ [] ⟨[(1, 1)], 2000000⟩
    rfl rfl (by decide)).2 (by decide)

/-- Claim C5 counterexample: gas limits 100 and `2^64 - 50` (both valid
uint64 values).  The true running sum at index 1 is `2^64 + 50`, far above
2,097,152, so the claim demands GasLimitExceeded there; but the uint64
accumulator wraps to 50 and the whole validation succeeds. -/
theorem C5_counterexample :
    verifyInclusionList
        ⟨[⟨1, 100⟩, ⟨1, 200⟩],
          [⟨0, 1, 100, 2000000000, some 1, 5⟩, ⟨0, 2, 2 ^ 64 - 50, 2000000000, some 1, 6⟩]⟩
        1000000000 (fun _ => 0) = .ok true
    ∧ 2097152 < 100 + (2 ^ 64 - 50) := by
  exact ⟨rfl, by decide⟩
